import Mathlib

/-!
Verification of the box-packer repository (src/app.py).

The repository consists of a single Streamlit front-end, `src/app.py`, built
on top of the external `py3dbp` packing engine.  The source file contains the
strategy optimizer (`run_packing_simulation` and the calculation block that
runs the three sort strategies and selects a winner), and the failure
diagnoser `analyze_failure`.  The placement engine itself (`Packer.pack`,
`Bin.put_item` of py3dbp) is not part of the repository sources, so it is
modelled here from the specification (sections 4.1, 4.2, 4.3): geometry
primitives, candidate anchor points, the greedy first-fit placement loop with
bounds, collision and weight checks.  Dimensions and coordinates are modelled
as exact integers in a fixed decimal sub-unit (concrete decimal inputs are
scaled by 100): every comparison the engine and the optimizer make — sums of
coordinates and dimensions, and comparisons within one sort key — is
invariant under this uniform scaling, so the integer model walks exactly as
the decimal one does.
-/

set_option maxHeartbeats 1600000

namespace BoxPacker

/-! ## Geometry primitives (modelled from the spec, section 4.1) -/

/-- An oriented dimension triple along the container axes X, Y, Z. -/
structure Dims where
  l : ℤ
  w : ℤ
  h : ℤ
deriving DecidableEq, Repr

/-- A candidate anchor point. -/
structure Point where
  x : ℤ
  y : ℤ
  z : ℤ
deriving DecidableEq, Repr

/-- An axis-aligned box: anchor (minimum corner) plus oriented dimensions. -/
structure Box where
  x : ℤ
  y : ℤ
  z : ℤ
  dx : ℤ
  dy : ℤ
  dz : ℤ
deriving DecidableEq, Repr

/-- Modelled from the spec: the six axis-aligned orientations of a box,
before deduplication (section 4.1, `rotations_of`). -/
def allRotations (d : Dims) : List Dims :=
  [⟨d.l, d.w, d.h⟩, ⟨d.l, d.h, d.w⟩, ⟨d.w, d.l, d.h⟩,
   ⟨d.w, d.h, d.l⟩, ⟨d.h, d.l, d.w⟩, ⟨d.h, d.w, d.l⟩]

/-- Order-preserving deduplication (keeps the first occurrence). -/
def dedupKeepFirst (l : List Dims) : List Dims :=
  l.foldl (fun acc d => if d ∈ acc then acc else acc ++ [d]) []

/-- Modelled from the spec: `rotations_of(dims)` — the deduplicated set of
oriented dimension triples, in a stable order (section 4.1). -/
def rotationsOf (d : Dims) : List Dims :=
  dedupKeepFirst (allRotations d)

/-- Modelled from the spec: axis-aligned separating-axis intersection test —
two boxes overlap iff they overlap on all three axes (section 4.1). -/
def intersects (a b : Box) : Bool :=
  decide (a.x < b.x + b.dx ∧ b.x < a.x + a.dx ∧
          a.y < b.y + b.dy ∧ b.y < a.y + a.dy ∧
          a.z < b.z + b.dz ∧ b.z < a.z + a.dz)

/-- Modelled from the spec: containment of a box in the container
volume `[0, Lx] × [0, Ly] × [0, Lz]` (section 4.1, `fits_within`). -/
def fitsWithin (b : Box) (c : Dims) : Bool :=
  decide (0 ≤ b.x ∧ 0 ≤ b.y ∧ 0 ≤ b.z ∧
          b.x + b.dx ≤ c.l ∧ b.y + b.dy ≤ c.w ∧ b.z + b.dz ≤ c.h)

/-! ## Placement engine (modelled from the spec, sections 4.2 and 4.3).
The engine (py3dbp's `Packer`/`Bin`/`Item`) is not part of the repository
sources; only its caller `run_packing_simulation` is.  These definitions
follow the contract of `place_all` in the spec. -/

/-- An item handed to the placement engine: a name, native dimensions and a
weight. -/
structure PItem where
  name : String
  dims : Dims
  weight : ℤ
deriving DecidableEq, Repr

/-- A successful placement: the item, its anchor position and its chosen
rotation. -/
structure Placement where
  item : PItem
  pos : Point
  rot : Dims
deriving DecidableEq, Repr

/-- The oriented box occupied by an anchor and a rotation. -/
def mkBox (p : Point) (r : Dims) : Box :=
  ⟨p.x, p.y, p.z, r.l, r.w, r.h⟩

/-- The box occupied by a placement. -/
def boxOf (pl : Placement) : Box :=
  mkBox pl.pos pl.rot

/-- Engine state: placed items, unplaced items, the growing candidate-point
list, and the running total weight. -/
structure PackState where
  placed : List Placement
  unplaced : List PItem
  points : List Point
  totalW : ℤ
deriving DecidableEq, Repr

/-- Modelled from the spec: the candidate `(point, rotation)` pairs tried for
one item, candidate points in stable list order (outer), rotations inner
(section 4.2, step 2). -/
def candidatePairs (points : List Point) (rots : List Dims) : List (Point × Dims) :=
  (points.map (fun p => rots.map (fun r => (p, r)))).flatten

/-- Modelled from the spec: the acceptance checks of section 4.2 steps 2b-2d —
container bounds, no collision with any placed item, and the weight budget. -/
def okPlacement (c : Dims) (limit : ℤ) (placed : List Placement) (totalW : ℤ)
    (weight : ℤ) (pr : Point × Dims) : Bool :=
  fitsWithin (mkBox pr.1 pr.2) c &&
    placed.all (fun q => !intersects (mkBox pr.1 pr.2) (boxOf q)) &&
    decide (totalW + weight ≤ limit)

/-- Modelled from the spec: the first `(point, rotation)` pair passing all
checks, in the fixed enumeration order (section 4.2, tie-break policy). -/
def findSpot (c : Dims) (limit : ℤ) (placed : List Placement) (totalW : ℤ)
    (weight : ℤ) (points : List Point) (rots : List Dims) : Option (Point × Dims) :=
  (candidatePairs points rots).find? (okPlacement c limit placed totalW weight)

/-- Modelled from the spec: placing a single item — on success the placement
is recorded and the three far-corner projection points are appended
(section 4.3); on failure the item is added to the unplaced list
(section 4.2, step 3). -/
def placeStep (c : Dims) (limit : ℤ) (s : PackState) (it : PItem) : PackState :=
  match findSpot c limit s.placed s.totalW it.weight s.points (rotationsOf it.dims) with
  | some (p, r) =>
      { s with
        placed := s.placed ++ [⟨it, p, r⟩],
        totalW := s.totalW + it.weight,
        points := s.points ++
          [⟨p.x + r.l, p.y, p.z⟩, ⟨p.x, p.y + r.w, p.z⟩, ⟨p.x, p.y, p.z + r.h⟩] }
  | none => { s with unplaced := s.unplaced ++ [it] }

/-- The initial engine state: nothing placed, candidate points seeded with the
origin (spec section 4.2, step 1). -/
def initState : PackState :=
  ⟨[], [], [⟨0, 0, 0⟩], 0⟩

/-- Modelled from the spec: `place_all(container, ordered_items)` — greedy
non-backtracking placement of each item in input order (section 4.2). -/
def placeAll (c : Dims) (limit : ℤ) (items : List PItem) : PackState :=
  items.foldl (placeStep c limit) initState

/-! ## The source file's own code (translated from src/app.py) -/

/-- An entry of `st.session_state.items_to_pack` (src/app.py lines 39-45):
a dict with name, the three dimensions, and a color. -/
structure ItemDict where
  name : String
  l : ℤ
  w : ℤ
  h : ℤ
  color : String
deriving DecidableEq, Repr

/-- Strategy A sort key, `lambda x: x['l'] * x['w'] * x['h']`
(src/app.py line 168). -/
def volKey (x : ItemDict) : ℤ := x.l * x.w * x.h

/-- Strategy B sort key, `lambda x: max(x['l'], x['w'], x['h'])`
(src/app.py line 174). -/
def longestKey (x : ItemDict) : ℤ := max x.l (max x.w x.h)

/-- Strategy C sort key, `lambda x: x['l'] * x['w']` (src/app.py line 180). -/
def areaKey (x : ItemDict) : ℤ := x.l * x.w

/-- Stable descending insertion: the new element goes after every element
whose key is greater than or equal to its own. -/
def insertDescBy (key : ItemDict → ℤ) (a : ItemDict) : List ItemDict → List ItemDict
  | [] => [a]
  | b :: bs => if key b < key a then a :: b :: bs else b :: insertDescBy key a bs

/-- The Python call `sorted(items, key=sort_key_func, reverse=True)`
(src/app.py line 133): a stable descending sort by the given key. -/
def sortedDesc (key : ItemDict → ℤ) (items : List ItemDict) : List ItemDict :=
  items.foldl (fun acc x => insertDescBy key x acc) []

/-- The per-run item name, `f"{item['name']}-{i}"` (src/app.py line 141). -/
def pyItemName (name : String) (i : ℕ) : String :=
  name ++ "-" ++ toString i

/-- The item-construction loop of src/app.py lines 140-143: each dict becomes
a fresh engine item `Item(f"{name}-{i}", l, w, h, 1)` with hardcoded
weight 1. -/
def mkPItems (items : List ItemDict) : List PItem :=
  items.enum.map (fun pair => ⟨pyItemName pair.2.name pair.1, ⟨pair.2.l, pair.2.w, pair.2.h⟩, 1⟩)

/-- What `run_packing_simulation` returns (src/app.py lines 127-156): the
engine state of the single bin, the unfitted count, and the packed volume. -/
structure SimResult where
  state : PackState
  unfittedCount : ℕ
  packedVolume : ℤ
deriving DecidableEq, Repr

/-- `run_packing_simulation(items, sort_key_func)` (src/app.py lines 127-156):
sorts the items by the strategy key (descending), builds the single bin
`Bin('MainBox', box_l, box_w, box_h, 999999999)` and fresh weight-1 items,
runs the engine, and reports the unfitted count and packed volume (computed
from the items' native dimensions, line 154). -/
def run_packing_simulation (box : Dims) (key : ItemDict → ℤ) (items : List ItemDict) :
    SimResult :=
  let st := placeAll box 999999999 (mkPItems (sortedDesc key items))
  { state := st,
    unfittedCount := st.unplaced.length,
    packedVolume := st.placed.foldl
      (fun acc pl => acc + pl.item.dims.l * pl.item.dims.w * pl.item.dims.h) 0 }

/-- One entry of the `results` list (src/app.py lines 186-190):
`(Packer, FailCount, Volume, Name)`. -/
structure AttemptResult where
  sim : SimResult
  fail : ℕ
  vol : ℤ
  strategyName : String
deriving DecidableEq, Repr

/-- Strategy A: Volume sort (src/app.py lines 166-169). -/
def attemptA (box : Dims) (items : List ItemDict) : AttemptResult :=
  let r := run_packing_simulation box volKey items
  ⟨r, r.unfittedCount, r.packedVolume, "Volume Sort"⟩

/-- Strategy B: Longest-side sort (src/app.py lines 172-175). -/
def attemptB (box : Dims) (items : List ItemDict) : AttemptResult :=
  let r := run_packing_simulation box longestKey items
  ⟨r, r.unfittedCount, r.packedVolume, "Longest-Side Sort"⟩

/-- Strategy C: Widest-footprint sort (src/app.py lines 178-181). -/
def attemptC (box : Dims) (items : List ItemDict) : AttemptResult :=
  let r := run_packing_simulation box areaKey items
  ⟨r, r.unfittedCount, r.packedVolume, "Area Sort"⟩

/-- The `results` list of src/app.py lines 186-190, in source order. -/
def attemptsList (box : Dims) (items : List ItemDict) : List AttemptResult :=
  [attemptA box items, attemptB box items, attemptC box items]

/-- The item orderings actually fed to the engine by the three strategies. -/
def attemptOrders (items : List ItemDict) : List (List ItemDict) :=
  [sortedDesc volKey items, sortedDesc longestKey items, sortedDesc areaKey items]

/-- The comparison key of `results.sort(key=lambda x: (x[1], -x[2]))`
(src/app.py line 193). -/
def resultKey (r : AttemptResult) : ℕ × ℤ :=
  (r.fail, -r.vol)

/-- Strict lexicographic order on the sort keys. -/
def keyLt (a b : ℕ × ℤ) : Prop :=
  a.1 < b.1 ∨ (a.1 = b.1 ∧ a.2 < b.2)

instance (a b : ℕ × ℤ) : Decidable (keyLt a b) := by
  unfold keyLt
  infer_instance

/-- The head of the stably sorted `results` list (src/app.py lines 193-196):
the first element attaining the lexicographically least key.  A later element
replaces the current best only when its key is strictly smaller, which is
exactly the element a stable sort brings to the front. -/
def pickFirstMin : AttemptResult → List AttemptResult → AttemptResult
  | best, [] => best
  | best, r :: rs =>
      if keyLt (resultKey r) (resultKey best) then pickFirstMin r rs
      else pickFirstMin best rs

/-- The whole calculation block of src/app.py lines 163-196: run the three
strategies and keep the winner, `results.sort(key=lambda x: (x[1], -x[2]))`
followed by `results[0]`. -/
def calculatePacking (box : Dims) (items : List ItemDict) : AttemptResult :=
  pickFirstMin (attemptA box items) [attemptB box items, attemptC box items]

/-- `analyze_failure(bin_obj, item_obj)` (src/app.py lines 118-124): sort the
three bin dimensions and the three item dimensions and report the item as too
large iff some sorted item dimension exceeds the corresponding sorted bin
dimension. -/
def sort3 (a b c : ℤ) : ℤ × ℤ × ℤ :=
  if a ≤ b then
    if b ≤ c then (a, b, c)
    else if a ≤ c then (a, c, b)
    else (c, a, b)
  else
    if a ≤ c then (b, a, c)
    else if b ≤ c then (b, c, a)
    else (c, b, a)

/-- The diagnosis string of src/app.py line 123. -/
def tooLargeMsg : String := "❌ Item is too large for box (Dimensions mismatch)"

/-- The diagnosis string of src/app.py line 124. -/
def noSpaceMsg : String := "📦 Not enough remaining space (or fragmentation)"

/-- `analyze_failure` itself (src/app.py lines 118-124): `bin_dims` and
`item_dims` are the sorted dimension triples, and the item is reported too
large iff `any(i > b for i, b in zip(item_dims, bin_dims))`. -/
def analyze_failure (bin item : Dims) : String :=
  if (sort3 item.l item.w item.h).1 > (sort3 bin.l bin.w bin.h).1 ∨
      (sort3 item.l item.w item.h).2.1 > (sort3 bin.l bin.w bin.h).2.1 ∨
      (sort3 item.l item.w item.h).2.2 > (sort3 bin.l bin.w bin.h).2.2 then
    tooLargeMsg
  else noSpaceMsg

/-! ## Basic facts about the engine -/

/-- Intersection of boxes is symmetric. -/
theorem intersects_comm (a b : Box) : intersects a b = intersects b a := by
  unfold intersects
  rw [decide_eq_decide]
  constructor <;> rintro ⟨h1, h2, h3, h4, h5, h6⟩ <;> exact ⟨h2, h1, h4, h3, h6, h5⟩

/-- What a passing placement check guarantees: the oriented box is inside the
container, meets no placed box, and respects the weight budget. -/
theorem okPlacement_spec {c : Dims} {limit : ℤ} {placed : List Placement}
    {totalW weight : ℤ} {pr : Point × Dims}
    (h : okPlacement c limit placed totalW weight pr = true) :
    fitsWithin (mkBox pr.1 pr.2) c = true ∧
      (∀ q ∈ placed, intersects (mkBox pr.1 pr.2) (boxOf q) = false) ∧
      totalW + weight ≤ limit := by
  unfold okPlacement at h
  simp only [Bool.and_eq_true, List.all_eq_true, Bool.not_eq_true',
    decide_eq_true_eq] at h
  exact ⟨h.1.1, h.1.2, h.2⟩

/-- The two parts of claim C1 for a single engine state: placed boxes are
pairwise non-overlapping and each lies inside the container. -/
def GoodState (c : Dims) (s : PackState) : Prop :=
  List.Pairwise (fun p q => intersects (boxOf p) (boxOf q) = false) s.placed ∧
    ∀ p ∈ s.placed, fitsWithin (boxOf p) c = true

/-- One accepted or rejected placement preserves the packing invariant. -/
theorem placeStep_good {c : Dims} {limit : ℤ} {s : PackState} (it : PItem)
    (h : GoodState c s) : GoodState c (placeStep c limit s it) := by
  unfold placeStep
  cases hf : findSpot c limit s.placed s.totalW it.weight s.points (rotationsOf it.dims) with
  | none => exact h
  | some pr =>
    obtain ⟨p, r⟩ := pr
    obtain ⟨hfits, hnint, -⟩ := okPlacement_spec (List.find?_some hf)
    constructor
    · rw [List.pairwise_append]
      refine ⟨h.1, List.pairwise_singleton _ _, ?_⟩
      intro x hx y hy
      simp only [List.mem_singleton] at hy
      subst hy
      rw [intersects_comm]
      exact hnint x hx
    · intro q hq
      rcases List.mem_append.mp hq with hq | hq
      · exact h.2 q hq
      · simp only [List.mem_singleton] at hq
        subst hq
        exact hfits

/-- The packing invariant holds of every state the engine reaches. -/
theorem foldl_good {c : Dims} {limit : ℤ} :
    ∀ (items : List PItem) (s : PackState),
      GoodState c s → GoodState c (items.foldl (placeStep c limit) s)
  | [], _, h => h
  | it :: its, _, h => foldl_good its _ (placeStep_good it h)

/-- `place_all` only produces states satisfying the packing invariant. -/
theorem placeAll_good (c : Dims) (limit : ℤ) (items : List PItem) :
    GoodState c (placeAll c limit items) := by
  refine foldl_good items initState ⟨List.Pairwise.nil, ?_⟩
  intro p hp
  simp [initState] at hp

/-- Each placement adds the item to exactly one of the two output lists. -/
theorem foldl_count {c : Dims} {limit : ℤ} :
    ∀ (items : List PItem) (s : PackState),
      (items.foldl (placeStep c limit) s).placed.length +
          (items.foldl (placeStep c limit) s).unplaced.length =
        s.placed.length + s.unplaced.length + items.length := by
  intro items
  induction items with
  | nil => intro s; simp
  | cons it its ih =>
    intro s
    rw [List.foldl_cons]
    rw [ih (placeStep c limit s it)]
    unfold placeStep
    cases hf : findSpot c limit s.placed s.totalW it.weight s.points (rotationsOf it.dims) with
    | none => simp +arith
    | some pr => obtain ⟨p, r⟩ := pr; simp +arith

/-- Every item ends up placed or unplaced: the two lists partition the input. -/
theorem placeAll_count (c : Dims) (limit : ℤ) (items : List PItem) :
    (placeAll c limit items).placed.length + (placeAll c limit items).unplaced.length =
      items.length := by
  have h := @foldl_count c limit items initState
  simpa [placeAll, initState] using h

/-! ## Facts about the winner selection (src/app.py lines 193-196) -/

theorem keyLt_irrefl (a : ℕ × ℤ) : ¬ keyLt a a := by
  rintro (h | ⟨-, h⟩) <;> exact lt_irrefl _ h

theorem keyLt_trans {a b c : ℕ × ℤ} (h1 : keyLt a b) (h2 : keyLt b c) : keyLt a c := by
  rcases h1 with h1 | ⟨e1, h1⟩ <;> rcases h2 with h2 | ⟨e2, h2⟩
  · exact Or.inl (h1.trans h2)
  · exact Or.inl (e2 ▸ h1)
  · exact Or.inl (e1 ▸ h2)
  · exact Or.inr ⟨e1.trans e2, h1.trans h2⟩

/-- From `a ≤ b` (no strict improvement) and `b < c` conclude `a < c`. -/
theorem keyLt_of_not_of_lt {a b c : ℕ × ℤ} (h1 : ¬ keyLt b a) (h2 : keyLt b c) :
    keyLt a c := by
  unfold keyLt at *
  push_neg at h1
  obtain ⟨hn1, hn2⟩ := h1
  rcases h2 with h2 | ⟨e2, h2⟩
  · left; omega
  · by_cases he : a.1 = b.1
    · right
      exact ⟨he.trans e2, lt_of_le_of_lt (hn2 he.symm) h2⟩
    · left
      omega

/-- From `a < b` and `b ≤ c` (no strict improvement of c over b) conclude
`a < c`. -/
theorem keyLt_of_lt_of_not {a b c : ℕ × ℤ} (h1 : keyLt a b) (h2 : ¬ keyLt c b) :
    keyLt a c := by
  unfold keyLt at *
  push_neg at h2
  obtain ⟨hn1, hn2⟩ := h2
  rcases h1 with h1 | ⟨e1, h1⟩
  · left; omega
  · by_cases he : b.1 = c.1
    · right
      exact ⟨e1.trans he, lt_of_lt_of_le h1 (hn2 he.symm)⟩
    · left
      omega

/-- The selected winner is one of the attempts. -/
theorem pickFirstMin_mem : ∀ (l : List AttemptResult) (a : AttemptResult),
    pickFirstMin a l = a ∨ pickFirstMin a l ∈ l := by
  intro l
  induction l with
  | nil => intro a; left; rfl
  | cons r rs ih =>
    intro a
    simp only [pickFirstMin]
    split_ifs with hlt
    · rcases ih r with h | h
      · right; rw [h]; exact List.mem_cons_self r rs
      · right; exact List.mem_cons_of_mem r h
    · rcases ih a with h | h
      · left; exact h
      · right; exact List.mem_cons_of_mem r h

/-- The selected winner's key is minimal: no attempt sorts strictly before
it. -/
theorem pickFirstMin_min : ∀ (l : List AttemptResult) (a : AttemptResult),
    ¬ keyLt (resultKey a) (resultKey (pickFirstMin a l)) ∧
      ∀ x ∈ l, ¬ keyLt (resultKey x) (resultKey (pickFirstMin a l)) := by
  intro l
  induction l with
  | nil =>
    intro a
    exact ⟨keyLt_irrefl _, by simp⟩
  | cons r rs ih =>
    intro a
    simp only [pickFirstMin]
    split_ifs with hlt
    · obtain ⟨h1, h2⟩ := ih r
      refine ⟨fun hc => h1 (keyLt_trans hlt hc), ?_⟩
      intro x hx
      rcases List.mem_cons.mp hx with rfl | hx
      · exact h1
      · exact h2 x hx
    · obtain ⟨h1, h2⟩ := ih a
      refine ⟨h1, ?_⟩
      intro x hx
      rcases List.mem_cons.mp hx with rfl | hx
      · exact fun hc => h1 (keyLt_of_not_of_lt hlt hc)
      · exact h2 x hx

/-- The selected winner is the FIRST attempt attaining the minimal key: every
attempt listed before it has a strictly larger key (this is the stable-sort
tie-break of `results.sort`). -/
theorem pickFirstMin_first : ∀ (l : List AttemptResult) (a : AttemptResult),
    ∃ l1 l2, a :: l = l1 ++ pickFirstMin a l :: l2 ∧
      ∀ x ∈ l1, keyLt (resultKey (pickFirstMin a l)) (resultKey x) := by
  intro l
  induction l with
  | nil =>
    intro a
    exact ⟨[], [], rfl, by simp⟩
  | cons r rs ih =>
    intro a
    simp only [pickFirstMin]
    split_ifs with hlt
    · obtain ⟨l1, l2, heq, hall⟩ := ih r
      refine ⟨a :: l1, l2, by rw [List.cons_append, ← heq], ?_⟩
      intro x hx
      rcases List.mem_cons.mp hx with rfl | hx
      · exact keyLt_of_not_of_lt (pickFirstMin_min rs r).1 hlt
      · exact hall x hx
    · obtain ⟨l1, l2, heq, hall⟩ := ih a
      cases l1 with
      | nil =>
        simp only [List.nil_append] at heq
        obtain ⟨hw, hl2⟩ := List.cons.inj heq
        refine ⟨[], r :: rs, ?_, by simp⟩
        rw [List.nil_append, ← hw]
      | cons y l1t =>
        simp only [List.cons_append] at heq
        obtain ⟨hy, htail⟩ := List.cons.inj heq
        have hya : keyLt (resultKey (pickFirstMin a rs)) (resultKey a) := by
          have := hall y (List.mem_cons_self y l1t)
          rwa [← hy] at this
        refine ⟨a :: r :: l1t, l2, ?_, ?_⟩
        · rw [List.cons_append, List.cons_append, ← htail]
        · intro x hx
          rcases List.mem_cons.mp hx with rfl | hx
          · exact hya
          · rcases List.mem_cons.mp hx with rfl | hx
            · exact keyLt_of_lt_of_not hya hlt
            · exact hall x (List.mem_cons_of_mem y hx)

/-! ## Facts about the stable descending sort (src/app.py line 133) -/

/-- Inserting an element is a permutation of prepending it. -/
theorem insertDescBy_perm (key : ItemDict → ℤ) (a : ItemDict) :
    ∀ l : List ItemDict, (insertDescBy key a l).Perm (a :: l) := by
  intro l
  induction l with
  | nil => exact List.Perm.refl _
  | cons b bs ih =>
    unfold insertDescBy
    split_ifs with hlt
    · exact List.Perm.refl _
    · exact (ih.cons b).trans (List.Perm.swap a b bs)

/-- The sorted list is a permutation of the input list. -/
theorem sortedDesc_perm (key : ItemDict → ℤ) (items : List ItemDict) :
    (sortedDesc key items).Perm items := by
  have main : ∀ (l : List ItemDict) (acc : List ItemDict),
      (l.foldl (fun acc x => insertDescBy key x acc) acc).Perm (acc ++ l) := by
    intro l
    induction l with
    | nil => intro acc; simp
    | cons x xs ih =>
      intro acc
      rw [List.foldl_cons]
      refine (ih (insertDescBy key x acc)).trans ?_
      refine (List.Perm.append_right xs (insertDescBy_perm key x acc)).trans ?_
      exact List.perm_middle.symm
  simpa [sortedDesc] using main items []

/-- Inserting preserves the descending-by-key invariant. -/
theorem insertDescBy_pairwise (key : ItemDict → ℤ) (a : ItemDict) :
    ∀ l : List ItemDict, List.Pairwise (fun x y => key y ≤ key x) l →
      List.Pairwise (fun x y => key y ≤ key x) (insertDescBy key a l) := by
  intro l
  induction l with
  | nil => intro _; exact List.pairwise_singleton _ _
  | cons b bs ih =>
    intro h
    rw [List.pairwise_cons] at h
    unfold insertDescBy
    split_ifs with hlt
    · rw [List.pairwise_cons]
      constructor
      · intro x hx
        rcases List.mem_cons.mp hx with rfl | hx
        · exact le_of_lt hlt
        · exact (h.1 x hx).trans (le_of_lt hlt)
      · rw [List.pairwise_cons]
        exact h
    · rw [List.pairwise_cons]
      constructor
      · intro x hx
        have hx2 : x ∈ a :: bs := (insertDescBy_perm key a bs).mem_iff.mp hx
        rcases List.mem_cons.mp hx2 with rfl | hx2
        · exact le_of_not_lt hlt
        · exact h.1 x hx2
      · exact ih h.2

/-- The sort of src/app.py line 133 really sorts: its output is descending in
the strategy key. -/
theorem sortedDesc_pairwise (key : ItemDict → ℤ) (items : List ItemDict) :
    List.Pairwise (fun x y => key y ≤ key x) (sortedDesc key items) := by
  have main : ∀ (l : List ItemDict) (acc : List ItemDict),
      List.Pairwise (fun x y => key y ≤ key x) acc →
        List.Pairwise (fun x y => key y ≤ key x)
          (l.foldl (fun acc x => insertDescBy key x acc) acc) := by
    intro l
    induction l with
    | nil => intro acc h; exact h
    | cons x xs ih =>
      intro acc h
      rw [List.foldl_cons]
      exact ih _ (insertDescBy_pairwise key x acc h)
  exact main items [] List.Pairwise.nil

/-- The sorted list has the length of the input. -/
theorem sortedDesc_length (key : ItemDict → ℤ) (items : List ItemDict) :
    (sortedDesc key items).length = items.length :=
  (sortedDesc_perm key items).length_eq

/-- Each dict becomes exactly one engine item. -/
theorem mkPItems_length (items : List ItemDict) :
    (mkPItems items).length = items.length := by
  simp [mkPItems]

/-- The engine items built by src/app.py line 141 all carry hardcoded
weight 1. -/
theorem mkPItems_weight (items : List ItemDict) :
    ∀ x ∈ mkPItems items, x.weight = 1 := by
  intro x hx
  simp only [mkPItems, List.mem_map] at hx
  obtain ⟨pair, -, rfl⟩ := hx
  rfl

/-- Each attempt feeds all the items to the engine, so its placed and
unfitted counts always sum to the input count. -/
theorem attempt_count (box : Dims) (items : List ItemDict) :
    ∀ att ∈ attemptsList box items,
      att.sim.state.placed.length + att.fail = items.length := by
  intro att hatt
  have base : ∀ key : ItemDict → ℤ,
      (run_packing_simulation box key items).state.placed.length +
          (run_packing_simulation box key items).state.unplaced.length =
        items.length := by
    intro key
    unfold run_packing_simulation
    rw [placeAll_count, mkPItems_length, sortedDesc_length]
  simp only [attemptsList, List.mem_cons, List.not_mem_nil, or_false] at hatt
  rcases hatt with rfl | rfl | rfl
  · exact base volKey
  · exact base longestKey
  · exact base areaKey

/-! ## Weight accounting -/

/-- The total weight of the placed items of a state. -/
def placedWeight (s : PackState) : ℤ :=
  s.placed.foldl (fun acc pl => acc + pl.item.weight) 0

/-- The running total the engine keeps is the weight of the placed items, and
it never exceeds the weight limit. -/
theorem foldl_weight {c : Dims} {limit : ℤ} :
    ∀ (items : List PItem) (s : PackState),
      s.totalW = placedWeight s → s.totalW ≤ limit →
        (items.foldl (placeStep c limit) s).totalW =
            placedWeight (items.foldl (placeStep c limit) s) ∧
          (items.foldl (placeStep c limit) s).totalW ≤ limit := by
  intro items
  induction items with
  | nil => intro s h1 h2; exact ⟨h1, h2⟩
  | cons it its ih =>
    intro s h1 h2
    rw [List.foldl_cons]
    have hstep : (placeStep c limit s it).totalW = placedWeight (placeStep c limit s it) ∧
        (placeStep c limit s it).totalW ≤ limit := by
      unfold placeStep
      cases hf : findSpot c limit s.placed s.totalW it.weight s.points (rotationsOf it.dims) with
      | none => exact ⟨h1, h2⟩
      | some pr =>
        obtain ⟨p, r⟩ := pr
        obtain ⟨-, -, hw⟩ := okPlacement_spec (List.find?_some hf)
        constructor
        · show s.totalW + it.weight = placedWeight ⟨s.placed ++ [⟨it, p, r⟩], _, _, _⟩
          unfold placedWeight
          rw [List.foldl_append]
          simp [h1, placedWeight]
        · exact hw
    exact ih _ hstep.1 hstep.2

/-- The weight invariant of the spec (section 8): the placed items' total
weight never exceeds the weight limit. -/
theorem placeAll_weight (c : Dims) (limit : ℤ) (items : List PItem)
    (h : 0 ≤ limit) : placedWeight (placeAll c limit items) ≤ limit := by
  have := @foldl_weight c limit items initState (by rfl) h
  rw [placeAll]
  rw [← this.1]
  exact this.2

/-! ## The engine with the weight check erased (for claim C10) -/

/-- The acceptance checks of `okPlacement` with the weight-capacity conjunct
removed; used to state that the weight branch is unreachable in the app. -/
def okPlacementNW (c : Dims) (placed : List Placement) (pr : Point × Dims) : Bool :=
  fitsWithin (mkBox pr.1 pr.2) c &&
    placed.all (fun q => !intersects (mkBox pr.1 pr.2) (boxOf q))

/-- `findSpot` against the weightless checks. -/
def findSpotNW (c : Dims) (placed : List Placement) (points : List Point)
    (rots : List Dims) : Option (Point × Dims) :=
  (candidatePairs points rots).find? (okPlacementNW c placed)

/-- `placeStep` with the weight check erased (state updates unchanged). -/
def placeStepNW (c : Dims) (s : PackState) (it : PItem) : PackState :=
  match findSpotNW c s.placed s.points (rotationsOf it.dims) with
  | some (p, r) =>
      { s with
        placed := s.placed ++ [⟨it, p, r⟩],
        totalW := s.totalW + it.weight,
        points := s.points ++
          [⟨p.x + r.l, p.y, p.z⟩, ⟨p.x, p.y + r.w, p.z⟩, ⟨p.x, p.y, p.z + r.h⟩] }
  | none => { s with unplaced := s.unplaced ++ [it] }

/-- `place_all` with the weight check erased. -/
def placeAllNW (c : Dims) (items : List PItem) : PackState :=
  items.foldl (placeStepNW c) initState

/-- While the running weight plus the count of remaining weight-1 items stays
below the capacity, the weight check can never fire, so the two engines walk
in lockstep. -/
theorem foldl_weightless : ∀ (items : List PItem) (c : Dims) (s : PackState),
    (∀ it ∈ items, it.weight = 1) →
    s.totalW + (items.length : ℤ) ≤ 999999999 →
    items.foldl (placeStep c 999999999) s = items.foldl (placeStepNW c) s := by
  intro items
  induction items with
  | nil => intro c s _ _; rfl
  | cons it its ih =>
    intro c s hw hb
    have hw1 : it.weight = 1 := hw it (List.mem_cons_self _ _)
    have hlen : ((it :: its).length : ℤ) = (its.length : ℤ) + 1 := by
      push_cast [List.length_cons]
      ring
    have hb2 : s.totalW + (its.length : ℤ) + 1 ≤ 999999999 := by
      rw [hlen] at hb
      linarith
    have hwt : s.totalW + it.weight ≤ (999999999 : ℤ) := by
      rw [hw1]
      have hnn : (0 : ℤ) ≤ (its.length : ℤ) := by positivity
      linarith
    have hcong : okPlacement c 999999999 s.placed s.totalW it.weight =
        okPlacementNW c s.placed := by
      funext pr
      unfold okPlacement okPlacementNW
      rw [decide_eq_true hwt, Bool.and_true]
    have hstep : placeStep c 999999999 s it = placeStepNW c s it := by
      unfold placeStep placeStepNW findSpot findSpotNW
      rw [hcong]
    rw [List.foldl_cons, List.foldl_cons, hstep]
    refine ih c _ (fun x hx => hw x (List.mem_cons_of_mem _ hx)) ?_
    unfold placeStepNW
    cases hf : findSpotNW c s.placed s.points (rotationsOf it.dims) with
    | none =>
      show s.totalW + (its.length : ℤ) ≤ 999999999
      linarith
    | some pr =>
      obtain ⟨p, r⟩ := pr
      show s.totalW + it.weight + (its.length : ℤ) ≤ 999999999
      rw [hw1]
      linarith

/-! ## Claim-side definitions for the optimizer score (claim C3).
These follow the SPEC's words, for comparison against the code's selection
rule; they are not translated from src/app.py. -/

/-- Number of items the attempt placed. -/
def placedCount (r : AttemptResult) : ℕ :=
  r.sim.state.placed.length

/-- The spec's "small floor-contact threshold": in the exact integer model a
placed item touches the floor iff its vertical coordinate is exactly 0. -/
def floorContactThreshold : ℤ := 0

/-- Follows the spec's words (claim C3): the number of placed items whose
vertical coordinate is at or below the floor-contact threshold. -/
def floorContactCount (r : AttemptResult) : ℕ :=
  (r.sim.state.placed.filter (fun pl => decide (pl.pos.z ≤ floorContactThreshold))).length

/-- Follows the spec's words (claim C3): the bounding volume of the placed
items — the product over the axes of the maximum occupied extent. -/
def boundingVolume (r : AttemptResult) : ℤ :=
  (r.sim.state.placed.foldl (fun m pl => max m (pl.pos.x + pl.rot.l)) 0) *
    (r.sim.state.placed.foldl (fun m pl => max m (pl.pos.y + pl.rot.w)) 0) *
    (r.sim.state.placed.foldl (fun m pl => max m (pl.pos.z + pl.rot.h)) 0)

/-- Follows the spec's words (claim C3): `x` scores strictly better than `y`
under the claimed lexicographic tuple — more items placed, then more
floor-contact items, then smaller bounding volume. -/
def claimBetter (x y : AttemptResult) : Prop :=
  placedCount y < placedCount x ∨
    (placedCount x = placedCount y ∧
      (floorContactCount y < floorContactCount x ∨
        (floorContactCount x = floorContactCount y ∧
          boundingVolume x < boundingVolume y)))

instance (x y : AttemptResult) : Decidable (claimBetter x y) := by
  unfold claimBetter
  infer_instance

/-- Follows the spec's words (claim C3): keep the current best and replace it
only on a strictly better score — "ties keep the first found". -/
def claimPick : AttemptResult → List AttemptResult → AttemptResult
  | best, [] => best
  | best, r :: rs => if claimBetter r best then claimPick r rs else claimPick best rs

/-- The claimed selection applied to the three attempts the code runs. -/
def claimWinner (box : Dims) (items : List ItemDict) : AttemptResult :=
  claimPick (attemptA box items) [attemptB box items, attemptC box items]

/-! ## The failure diagnosis (claim C7) -/

/-- An oriented triple fits the (empty) container dimensions. -/
def fitsDims (r c : Dims) : Prop :=
  r.l ≤ c.l ∧ r.w ≤ c.w ∧ r.h ≤ c.h

instance (r c : Dims) : Decidable (fitsDims r c) := by
  unfold fitsDims
  infer_instance

/-- `sort3` outputs one of the six arrangements of its inputs. -/
theorem sort3_eq_cases (a b c : ℤ) :
    sort3 a b c = (a, b, c) ∨ sort3 a b c = (a, c, b) ∨ sort3 a b c = (c, a, b) ∨
      sort3 a b c = (b, a, c) ∨ sort3 a b c = (b, c, a) ∨ sort3 a b c = (c, b, a) := by
  unfold sort3
  split_ifs <;> tauto

/-- The first component of `sort3` is below every input. -/
theorem sort3_fst_le_all (a b c : ℤ) :
    (sort3 a b c).1 ≤ a ∧ (sort3 a b c).1 ≤ b ∧ (sort3 a b c).1 ≤ c := by
  unfold sort3
  split_ifs <;> dsimp only <;> refine ⟨?_, ?_, ?_⟩ <;> linarith

/-- Every input is below the last component of `sort3`. -/
theorem sort3_all_le_thd (a b c : ℤ) :
    a ≤ (sort3 a b c).2.2 ∧ b ≤ (sort3 a b c).2.2 ∧ c ≤ (sort3 a b c).2.2 := by
  unfold sort3
  split_ifs <;> dsimp only <;> refine ⟨?_, ?_, ?_⟩ <;> linarith

/-- The first component of `sort3` is one of the inputs. -/
theorem sort3_fst_mem (a b c : ℤ) :
    (sort3 a b c).1 = a ∨ (sort3 a b c).1 = b ∨ (sort3 a b c).1 = c := by
  unfold sort3
  split_ifs <;> dsimp only <;> tauto

/-- The last component of `sort3` is one of the inputs. -/
theorem sort3_thd_mem (a b c : ℤ) :
    (sort3 a b c).2.2 = a ∨ (sort3 a b c).2.2 = b ∨ (sort3 a b c).2.2 = c := by
  unfold sort3
  split_ifs <;> dsimp only <;> tauto

/-- If two of the inputs are at most `M`, so is the middle component. -/
theorem sort3_mid_le (a b c M : ℤ)
    (h : (a ≤ M ∧ b ≤ M) ∨ (a ≤ M ∧ c ≤ M) ∨ (b ≤ M ∧ c ≤ M)) :
    (sort3 a b c).2.1 ≤ M := by
  unfold sort3
  split_ifs <;> dsimp only <;> rcases h with ⟨h1, h2⟩ | ⟨h1, h2⟩ | ⟨h1, h2⟩ <;> linarith

/-- Two of the inputs are at most the middle component. -/
theorem sort3_two_le_mid (a b c : ℤ) :
    (a ≤ (sort3 a b c).2.1 ∧ b ≤ (sort3 a b c).2.1) ∨
      (a ≤ (sort3 a b c).2.1 ∧ c ≤ (sort3 a b c).2.1) ∨
      (b ≤ (sort3 a b c).2.1 ∧ c ≤ (sort3 a b c).2.1) := by
  unfold sort3
  split_ifs <;> dsimp only <;>
    first
      | exact Or.inl ⟨by linarith, by linarith⟩
      | exact Or.inr (Or.inl ⟨by linarith, by linarith⟩)
      | exact Or.inr (Or.inr ⟨by linarith, by linarith⟩)

/-- Every arrangement of the sorted dimensions is one of the item's six
rotations. -/
theorem sort3_rearrangements_mem (a b c : ℤ) :
    (⟨(sort3 a b c).1, (sort3 a b c).2.1, (sort3 a b c).2.2⟩ : Dims) ∈ allRotations ⟨a, b, c⟩ ∧
    (⟨(sort3 a b c).1, (sort3 a b c).2.2, (sort3 a b c).2.1⟩ : Dims) ∈ allRotations ⟨a, b, c⟩ ∧
    (⟨(sort3 a b c).2.1, (sort3 a b c).1, (sort3 a b c).2.2⟩ : Dims) ∈ allRotations ⟨a, b, c⟩ ∧
    (⟨(sort3 a b c).2.1, (sort3 a b c).2.2, (sort3 a b c).1⟩ : Dims) ∈ allRotations ⟨a, b, c⟩ ∧
    (⟨(sort3 a b c).2.2, (sort3 a b c).1, (sort3 a b c).2.1⟩ : Dims) ∈ allRotations ⟨a, b, c⟩ ∧
    (⟨(sort3 a b c).2.2, (sort3 a b c).2.1, (sort3 a b c).1⟩ : Dims) ∈ allRotations ⟨a, b, c⟩ := by
  unfold sort3
  split_ifs <;> dsimp only <;> refine ⟨?_, ?_, ?_, ?_, ?_, ?_⟩ <;> simp [allRotations]

/-- Sorted-dimension domination is exactly the existence of a fitting
rotation: the three sorted item dimensions are pointwise at most the three
sorted container dimensions iff some axis-aligned rotation of the item fits
the empty container. -/
theorem sorted_le_iff_some_rotation_fits (a b c A B C : ℤ) :
    ((sort3 a b c).1 ≤ (sort3 A B C).1 ∧ (sort3 a b c).2.1 ≤ (sort3 A B C).2.1 ∧
        (sort3 a b c).2.2 ≤ (sort3 A B C).2.2) ↔
      ∃ r ∈ allRotations ⟨a, b, c⟩, fitsDims r ⟨A, B, C⟩ := by
  constructor
  · rintro ⟨h1, h2, h3⟩
    rcases sort3_eq_cases A B C with hb | hb | hb | hb | hb | hb <;>
      rw [hb] at h1 h2 h3 <;> dsimp only at h1 h2 h3
    · exact ⟨_, (sort3_rearrangements_mem a b c).1, h1, h2, h3⟩
    · exact ⟨_, (sort3_rearrangements_mem a b c).2.1, h1, h3, h2⟩
    · exact ⟨_, (sort3_rearrangements_mem a b c).2.2.2.1, h2, h3, h1⟩
    · exact ⟨_, (sort3_rearrangements_mem a b c).2.2.1, h2, h1, h3⟩
    · exact ⟨_, (sort3_rearrangements_mem a b c).2.2.2.2.1, h3, h1, h2⟩
    · exact ⟨_, (sort3_rearrangements_mem a b c).2.2.2.2.2, h3, h2, h1⟩
  · rintro ⟨r, hmem, hfit⟩
    simp only [allRotations, List.mem_cons, List.not_mem_nil, or_false] at hmem
    rcases hmem with rfl | rfl | rfl | rfl | rfl | rfl <;>
      obtain ⟨hx, hy, hz⟩ := hfit <;>
      refine ⟨?_, sort3_mid_le a b c _ ?_, ?_⟩ <;>
      first
        | (rcases sort3_fst_mem A B C with ht | ht | ht <;> rw [ht] <;>
            linarith [(sort3_fst_le_all a b c).1, (sort3_fst_le_all a b c).2.1,
              (sort3_fst_le_all a b c).2.2])
        | (rcases sort3_thd_mem a b c with hs | hs | hs <;> rw [hs] <;>
            linarith [(sort3_all_le_thd A B C).1, (sort3_all_le_thd A B C).2.1,
              (sort3_all_le_thd A B C).2.2])
        | (rcases sort3_two_le_mid A B C with ⟨hm1, hm2⟩ | ⟨hm1, hm2⟩ | ⟨hm1, hm2⟩ <;>
            first
              | exact Or.inl ⟨by linarith, by linarith⟩
              | exact Or.inr (Or.inl ⟨by linarith, by linarith⟩)
              | exact Or.inr (Or.inr ⟨by linarith, by linarith⟩))

/-! ## Shared selection facts and concrete scenarios -/

/-- The winner returned by the calculation block is one of the three
attempts. -/
theorem calculatePacking_mem (box : Dims) (items : List ItemDict) :
    calculatePacking box items ∈ attemptsList box items := by
  show pickFirstMin (attemptA box items) [attemptB box items, attemptC box items] ∈
    attemptA box items :: [attemptB box items, attemptC box items]
  rcases pickFirstMin_mem [attemptB box items, attemptC box items] (attemptA box items)
    with h | h
  · rw [h]
    exact List.mem_cons_self _ _
  · exact List.mem_cons_of_mem _ h

/-- No attempt's key sorts strictly before the winner's. -/
theorem calculatePacking_min (box : Dims) (items : List ItemDict) :
    ∀ x ∈ attemptsList box items,
      ¬ keyLt (resultKey x) (resultKey (calculatePacking box items)) := by
  intro x hx
  have hpair := pickFirstMin_min [attemptB box items, attemptC box items] (attemptA box items)
  simp only [attemptsList, List.mem_cons, List.not_mem_nil, or_false] at hx
  rcases hx with rfl | rfl | rfl
  · exact hpair.1
  · exact hpair.2 _ (by simp)
  · exact hpair.2 _ (by simp)

/-- The item color constant the sidebar defaults to (src/app.py line 35). -/
def defaultColor : String := "#00CC96"

/-- Scenario C's container, `(8.25, 6.38, 3.75)`, in hundredths. -/
def boxScenC : Dims := ⟨825, 638, 375⟩

/-- Scenario C's items, `(7, 3.7, 2.92)`, `(3.6, 3.35, 3.55)`,
`(4, 2.8, 0.8)`, in hundredths. -/
def itemsScenC : List ItemDict :=
  [⟨"A", 700, 370, 292, defaultColor⟩,
   ⟨"B", 360, 335, 355, defaultColor⟩,
   ⟨"C", 400, 280, 80, defaultColor⟩]

/-- A container `(3, 2, 1)` (in hundredths) used to compare the code's
scoring rule with the claimed one. -/
def boxScore : Dims := ⟨300, 200, 100⟩

/-- Items `(3, 1, 1)` and `(2, 2, 0.5)` (in hundredths), of which every
strategy can place exactly one: the volume and longest-side sorts place `X`,
the footprint sort places `Y`. -/
def itemsScore : List ItemDict :=
  [⟨"X", 300, 100, 100, defaultColor⟩, ⟨"Y", 200, 200, 50, defaultColor⟩]

/-- A container on which the original input order beats all three sort
strategies. -/
def boxOrd : Dims := ⟨4, 3, 2⟩

/-- In input order the cube goes in first and the second item still fits
rotated; every descending strategy places the big item first and blocks the
cube. -/
def itemsOrd : List ItemDict :=
  [⟨"a", 2, 2, 2, defaultColor⟩, ⟨"b", 3, 2, 2, defaultColor⟩]

/-- Scenario D's first weight-3 unit item. -/
def wItem1 : PItem := ⟨"w1", ⟨1, 1, 1⟩, 3⟩

/-- Scenario D's second weight-3 unit item. -/
def wItem2 : PItem := ⟨"w2", ⟨1, 1, 1⟩, 3⟩

/-- Modelled from the spec (claim C5's baseline): a single `place_all` run
with the items in their original input order — the code itself never runs
this ordering. -/
def runInputOrder (box : Dims) (items : List ItemDict) : PackState :=
  placeAll box 999999999 (mkPItems items)

/-! ## Claim C1 -/

/-- Claim C1: after every placement the engine accepts — hence in every
attempt's bin and in particular in the winning attempt — the placed items'
axis-aligned boxes are pairwise non-overlapping and each box lies fully
within the container `[0, Lx] × [0, Ly] × [0, Lz]`. -/
theorem packing_invariant_no_overlap_in_bounds :
    (∀ (c : Dims) (limit : ℤ) (items : List PItem) (n : ℕ),
        List.Pairwise (fun p q => intersects (boxOf p) (boxOf q) = false)
            (placeAll c limit (items.take n)).placed ∧
          ∀ p ∈ (placeAll c limit (items.take n)).placed,
            fitsWithin (boxOf p) c = true) ∧
      ∀ (box : Dims) (items : List ItemDict),
        List.Pairwise (fun p q => intersects (boxOf p) (boxOf q) = false)
            (calculatePacking box items).sim.state.placed ∧
          ∀ p ∈ (calculatePacking box items).sim.state.placed,
            fitsWithin (boxOf p) box = true := by
  constructor
  · intro c limit items n
    exact placeAll_good c limit (items.take n)
  · intro box items
    have hmem := calculatePacking_mem box items
    have base : ∀ key : ItemDict → ℤ,
        GoodState box (run_packing_simulation box key items).state := fun key =>
      placeAll_good box 999999999 (mkPItems (sortedDesc key items))
    simp only [attemptsList, List.mem_cons, List.not_mem_nil, or_false] at hmem
    rcases hmem with h | h | h <;> rw [h]
    · exact base volKey
    · exact base longestKey
    · exact base areaKey

/-! ## Claim C2 -/

/-- Claim C2 is false on the code: for the two-item list below the optimizer
attempts exactly three orderings, all equal to the descending-sorted list;
the original input order is not among them (and with two items an exhaustive
enumeration would have to contain it). -/
theorem original_order_not_attempted :
    attemptOrders [⟨"a", 1, 1, 1, defaultColor⟩, ⟨"b", 2, 2, 2, defaultColor⟩] =
        [[⟨"b", 2, 2, 2, defaultColor⟩, ⟨"a", 1, 1, 1, defaultColor⟩],
         [⟨"b", 2, 2, 2, defaultColor⟩, ⟨"a", 1, 1, 1, defaultColor⟩],
         [⟨"b", 2, 2, 2, defaultColor⟩, ⟨"a", 1, 1, 1, defaultColor⟩]] ∧
      [(⟨"a", 1, 1, 1, defaultColor⟩ : ItemDict), ⟨"b", 2, 2, 2, defaultColor⟩] ∉
        attemptOrders [⟨"a", 1, 1, 1, defaultColor⟩, ⟨"b", 2, 2, 2, defaultColor⟩] ∧
      (attemptOrders [⟨"a", 1, 1, 1, defaultColor⟩, ⟨"b", 2, 2, 2, defaultColor⟩]).length
        = 3 := by
  decide

/-- Claim C2 amended: the optimizer runs exactly three orderings — the input
list stably sorted descending by volume, by largest single dimension and by
`l*w` footprint; the original input order, random shuffles and exhaustive
permutations are not attempted. -/
theorem optimizer_attempts_exactly_three_sorted_orderings :
    ∀ items : List ItemDict,
      attemptOrders items =
          [sortedDesc volKey items, sortedDesc longestKey items,
           sortedDesc areaKey items] ∧
        ∀ key : ItemDict → ℤ,
          (sortedDesc key items).Perm items ∧
            List.Pairwise (fun x y => key y ≤ key x) (sortedDesc key items) :=
  fun items =>
    ⟨rfl, fun key => ⟨sortedDesc_perm key items, sortedDesc_pairwise key items⟩⟩

/-! ## Claim C3 -/

/-- Claim C3 is false on the code: on `boxScore`/`itemsScore` every attempt
places one item with floor contact, so the claimed tuple is decided by its
third component (bounding volume, ascending) and prefers the Area attempt,
while the code prefers the Volume attempt (larger packed volume). -/
theorem claimed_score_tuple_counterexample :
    (calculatePacking boxScore itemsScore).strategyName = "Volume Sort" ∧
      (claimWinner boxScore itemsScore).strategyName = "Area Sort" ∧
      calculatePacking boxScore itemsScore ≠ claimWinner boxScore itemsScore ∧
      placedCount (calculatePacking boxScore itemsScore) =
        placedCount (claimWinner boxScore itemsScore) ∧
      floorContactCount (calculatePacking boxScore itemsScore) =
        floorContactCount (claimWinner boxScore itemsScore) ∧
      boundingVolume (claimWinner boxScore itemsScore) <
        boundingVolume (calculatePacking boxScore itemsScore) := by
  decide

/-- Claim C3 amended: the optimizer scores every attempt by the lexicographic
key `(unfitted count ascending, packed volume descending)` — equivalently
`(items placed descending, packed volume descending)` — with no floor-contact
or bounding-volume term, and returns the first attempt attaining the least
key, so exact ties keep the first attempt found. -/
theorem winner_is_first_minimum_of_fail_then_volume :
    ∀ (box : Dims) (items : List ItemDict),
      calculatePacking box items ∈ attemptsList box items ∧
        (∀ x ∈ attemptsList box items,
          ¬ keyLt (resultKey x) (resultKey (calculatePacking box items))) ∧
        ∃ l1 l2,
          attemptsList box items = l1 ++ calculatePacking box items :: l2 ∧
            ∀ x ∈ l1, keyLt (resultKey (calculatePacking box items)) (resultKey x) := by
  intro box items
  exact ⟨calculatePacking_mem box items, calculatePacking_min box items,
    pickFirstMin_first [attemptB box items, attemptC box items] (attemptA box items)⟩

/-! ## Claim C4 -/

/-- Claim C4 is false on the code: on scenario C the optimizer's winning
attempt places 2 of the 3 items, not all 3 — the code never permutes the
container's dimensions (there is no container-rotation or exhaustive-ordering
configuration to enable). -/
theorem scenario_c_counterexample :
    (calculatePacking boxScenC itemsScenC).sim.state.placed.length = 2 ∧
      ¬ (calculatePacking boxScenC itemsScenC).sim.state.placed.length = 3 := by
  decide

/-- Claim C4 amended: every attempt hands the engine the container exactly as
the user entered it — the identity axis mapping is the only one explored —
and on scenario C the winner places the items named `A` and `C` (2 of 3),
leaving `B` unplaced. -/
theorem container_axes_never_permuted_and_scenario_c :
    (∀ (box : Dims) (key : ItemDict → ℤ) (items : List ItemDict),
        (run_packing_simulation box key items).state =
          placeAll box 999999999 (mkPItems (sortedDesc key items))) ∧
      ((calculatePacking boxScenC itemsScenC).sim.state.placed.map
          (fun p => p.item.name)) = ["A-0", "C-2"] ∧
      ((calculatePacking boxScenC itemsScenC).sim.state.unplaced.map
          (fun p => p.name)) = ["B-1"] ∧
      (calculatePacking boxScenC itemsScenC).sim.state.placed.length = 2 :=
  ⟨fun _ _ _ => rfl, by decide, by decide, by decide⟩

/-! ## Claim C5 -/

/-- Claim C5 is false on the code: on `boxOrd`/`itemsOrd` a single run in the
original input order places both items, while the optimizer's winning attempt
places only one — the input order is not among the attempted strategies. -/
theorem input_order_beats_optimizer :
    (runInputOrder boxOrd itemsOrd).placed.length = 2 ∧
      (calculatePacking boxOrd itemsOrd).sim.state.placed.length = 1 ∧
      (calculatePacking boxOrd itemsOrd).sim.state.placed.length <
        (runInputOrder boxOrd itemsOrd).placed.length := by
  decide

/-- Claim C5 amended: the winner is only guaranteed to do at least as well as
each of the three orderings the optimizer actually attempts (volume,
longest-side and footprint descending) — the original input order is not
among them. -/
theorem winner_places_at_least_each_attempted_strategy :
    ∀ (box : Dims) (items : List ItemDict) (att : AttemptResult),
      att ∈ attemptsList box items →
        (calculatePacking box items).fail ≤ att.fail ∧
          att.sim.state.placed.length ≤
            (calculatePacking box items).sim.state.placed.length := by
  intro box items att hatt
  have hmin := calculatePacking_min box items att hatt
  have hfail : (calculatePacking box items).fail ≤ att.fail := by
    unfold keyLt resultKey at hmin
    push_neg at hmin
    exact hmin.1
  refine ⟨hfail, ?_⟩
  have hsum1 := attempt_count box items att hatt
  have hsum2 := attempt_count box items (calculatePacking box items)
    (calculatePacking_mem box items)
  omega

/-- Witness for the amended claim C5, at the concrete counterexample input
and the volume-sort attempt. -/
theorem winner_places_at_least_witness :
    (calculatePacking boxOrd itemsOrd).fail ≤ (attemptA boxOrd itemsOrd).fail :=
  (winner_places_at_least_each_attempted_strategy boxOrd itemsOrd
    (attemptA boxOrd itemsOrd) (by exact List.mem_cons_self _ _)).1

/-! ## Claim C6 -/

/-- Claim C6 is false on the code in its reporting half: with weight limit 5
and two weight-3 unit cubes the engine indeed places only one, but the
program's only diagnosis function reports the unplaced cube as lacking space;
no "exceeds weight capacity" reason exists anywhere in the code. -/
theorem no_weight_capacity_reason_counterexample :
    (placeAll ⟨10, 10, 10⟩ 5 [wItem1, wItem2]).placed.length = 1 ∧
      (placeAll ⟨10, 10, 10⟩ 5 [wItem1, wItem2]).unplaced = [wItem2] ∧
      analyze_failure ⟨10, 10, 10⟩ wItem2.dims = noSpaceMsg ∧
      analyze_failure ⟨10, 10, 10⟩ wItem2.dims ≠ "exceeds weight capacity" ∧
      tooLargeMsg ≠ "exceeds weight capacity" := by
  decide

/-- Claim C6 amended: the engine does enforce the weight budget — the placed
weight never exceeds a nonnegative limit, and in scenario D exactly one of
the two weight-3 cubes is placed — but the reason reported for the rejected
cube is the no-space diagnosis: `analyze_failure` can only ever produce its
two fixed strings, neither of which mentions weight. -/
theorem weight_limit_respected_but_no_weight_reason :
    (∀ (c : Dims) (limit : ℤ) (items : List PItem), 0 ≤ limit →
        placedWeight (placeAll c limit items) ≤ limit) ∧
      (placeAll ⟨10, 10, 10⟩ 5 [wItem1, wItem2]).placed.length = 1 ∧
      (placeAll ⟨10, 10, 10⟩ 5 [wItem1, wItem2]).unplaced = [wItem2] ∧
      placedWeight (placeAll ⟨10, 10, 10⟩ 5 [wItem1, wItem2]) ≤ 5 ∧
      ∀ bin item : Dims,
        analyze_failure bin item = tooLargeMsg ∨
          analyze_failure bin item = noSpaceMsg := by
  refine ⟨fun c limit items h => placeAll_weight c limit items h,
    by decide, by decide, by decide, ?_⟩
  intro bin item
  unfold analyze_failure
  split_ifs <;> tauto

/-! ## Claim C7 -/

/-- Claim C7: the diagnosis of src/app.py lines 118-124 reports an unplaced
item as too large exactly when no axis-aligned rotation of the item fits the
empty container, and reports the no-space diagnosis otherwise; in particular
the `(11, 5, 5)` item offered to a `(10, 10, 10)` container is left unplaced
by the engine and diagnosed as too large. -/
theorem too_large_iff_no_rotation_fits :
    (∀ bin item : Dims,
        (analyze_failure bin item = tooLargeMsg ↔
          ∀ r ∈ allRotations item, ¬ fitsDims r bin) ∧
          (analyze_failure bin item ≠ tooLargeMsg →
            analyze_failure bin item = noSpaceMsg)) ∧
      analyze_failure ⟨10, 10, 10⟩ ⟨11, 5, 5⟩ = tooLargeMsg ∧
      (placeAll ⟨10, 10, 10⟩ 999999999 [⟨"big", ⟨11, 5, 5⟩, 1⟩]).placed = [] ∧
      (placeAll ⟨10, 10, 10⟩ 999999999 [⟨"big", ⟨11, 5, 5⟩, 1⟩]).unplaced =
        [⟨"big", ⟨11, 5, 5⟩, 1⟩] := by
  refine ⟨?_, by decide, by decide, by decide⟩
  intro bin item
  constructor
  · unfold analyze_failure
    split_ifs with hcond
    · constructor
      · intro _ r hr hfit
        obtain ⟨hle1, hle2, hle3⟩ :=
          (sorted_le_iff_some_rotation_fits item.l item.w item.h bin.l bin.w bin.h).mpr
            ⟨r, hr, hfit⟩
        rcases hcond with h | h | h <;> linarith
      · intro _
        rfl
    · constructor
      · intro hEq
        exact absurd hEq (by decide)
      · intro hall
        exfalso
        push_neg at hcond
        obtain ⟨r, hr, hfit⟩ :=
          (sorted_le_iff_some_rotation_fits item.l item.w item.h bin.l bin.w bin.h).mp
            ⟨hcond.1, hcond.2.1, hcond.2.2⟩
        exact hall r hr hfit
  · unfold analyze_failure
    split_ifs
    · intro h
      exact absurd rfl h
    · intro _
      rfl

/-! ## Claim C8 -/

/-- Claim C8: the whole pipeline is deterministic — running the engine or a
whole simulation twice on equal containers, weight limits and item lists
(fresh copies of the items are equal values) produces identical outcomes,
positions and rotations. -/
theorem placement_is_deterministic :
    ∀ (c : Dims) (limit : ℤ) (items1 items2 : List PItem)
      (box : Dims) (key : ItemDict → ℤ) (dicts1 dicts2 : List ItemDict),
      items1 = items2 → dicts1 = dicts2 →
        placeAll c limit items1 = placeAll c limit items2 ∧
          run_packing_simulation box key dicts1 =
            run_packing_simulation box key dicts2 := by
  intro c limit items1 items2 box key dicts1 dicts2 h1 h2
  subst h1
  subst h2
  exact ⟨rfl, rfl⟩

/-- Witness for claim C8 at a concrete input: two runs on fresh copies of the
same list coincide. -/
theorem placement_is_deterministic_witness :
    placeAll boxOrd 999999999 (mkPItems itemsOrd) =
        placeAll boxOrd 999999999 (mkPItems itemsOrd) ∧
      run_packing_simulation boxOrd volKey itemsOrd =
        run_packing_simulation boxOrd volKey itemsOrd :=
  placement_is_deterministic boxOrd 999999999 (mkPItems itemsOrd) (mkPItems itemsOrd)
    boxOrd volKey itemsOrd itemsOrd rfl rfl

/-! ## Claim C9 -/

/-- Models the caller-visible effect of one attempt on the shared item list
(claim C9): `run_packing_simulation` builds a new sorted list (src/app.py
line 133) and fresh engine items (lines 140-143); it reads the dicts' fields
and never writes them, so an attempt returns its result together with the
caller's list unchanged. -/
def runSimKeepingList (box : Dims) (key : ItemDict → ℤ) (items : List ItemDict) :
    SimResult × List ItemDict :=
  (run_packing_simulation box key items, items)

/-- Claim C9: each attempt leaves the shared input list unchanged, and each
attempt's result is a function of the container and the original list alone —
running an attempt after the others (threading the list through them) gives
exactly the result of running it in isolation. -/
theorem attempts_do_not_mutate_input_and_are_independent :
    ∀ (box : Dims) (items : List ItemDict),
      (runSimKeepingList box volKey items).2 = items ∧
        (runSimKeepingList box longestKey items).2 = items ∧
        (runSimKeepingList box areaKey items).2 = items ∧
        attemptsList box items =
          [attemptA box items, attemptB box items, attemptC box items] ∧
        (runSimKeepingList box longestKey
            ((runSimKeepingList box volKey items).2)).1 =
          run_packing_simulation box longestKey items ∧
        (runSimKeepingList box areaKey
            ((runSimKeepingList box longestKey
              ((runSimKeepingList box volKey items).2)).2)).1 =
          run_packing_simulation box areaKey items :=
  fun _ _ => ⟨rfl, rfl, rfl, rfl, rfl, rfl⟩

/-! ## Claim C10 -/

/-- Claim C10: the app hardcodes bin capacity 999999999 and item weight 1, so
in every run with fewer than 999999999 items the weight check can never fire:
the engine with the weight check erased computes exactly the same state, both
in general and for the states `run_packing_simulation` produces. -/
theorem weight_rejection_unreachable :
    (∀ (c : Dims) (items : List PItem),
        (∀ it ∈ items, it.weight = 1) → items.length < 999999999 →
          placeAll c 999999999 items = placeAllNW c items) ∧
      ∀ (box : Dims) (key : ItemDict → ℤ) (items : List ItemDict),
        items.length < 999999999 →
          (run_packing_simulation box key items).state =
            placeAllNW box (mkPItems (sortedDesc key items)) := by
  have main : ∀ (c : Dims) (items : List PItem),
      (∀ it ∈ items, it.weight = 1) → items.length < 999999999 →
        placeAll c 999999999 items = placeAllNW c items := by
    intro c items hw hlen
    unfold placeAll placeAllNW
    apply foldl_weightless items c initState hw
    show (0 : ℤ) + (items.length : ℤ) ≤ 999999999
    have hc : (items.length : ℤ) < 999999999 := by exact_mod_cast hlen
    linarith
  refine ⟨main, ?_⟩
  intro box key items hlen
  show placeAll box 999999999 (mkPItems (sortedDesc key items)) =
    placeAllNW box (mkPItems (sortedDesc key items))
  apply main
  · exact mkPItems_weight _
  · rw [mkPItems_length, sortedDesc_length]
    exact hlen

end BoxPacker
